import Mathlib

/-!
# Verification of the recipe-app data layer

A shallow embedding of the model layer of the recipe application
(`src/models/recipe.js`, `src/models/category.js`, `src/models/ingredient.js`,
`src/models/instruction.js` and their later variants using the
`ingredient_measures` table).  The relational store is modelled as plain
lists of rows; each model method becomes a Lean function from the table
state to an `Except` result paired with the new table state.  SQL
three-valued logic for `NULL` comparisons is modelled explicitly
(`sqlEqOpt`): a comparison with `NULL` is never true.
-/

/-- The error classes of `expressError.js` that the model layer throws. -/
inductive AppError where
  | notFound
  | badRequest
  | unauthorized
  | forbidden
  deriving Repr, DecidableEq

/-- Postgres equality between a column value and a parameter when either side
may be `NULL`: `col = NULL` is never true (three-valued logic), so two
`NULL`s do not match. -/
def sqlEqOpt (a b : Option Nat) : Bool :=
  match a, b with
  | some x, some y => x == y
  | _, _ => false

/-- A row of the `recipes` table, restricted to the columns that
`Recipe.toggleFavorite` reads or writes (`id`, `username`, `is_favorite`). -/
structure RecipeRow where
  id : Nat
  username : String
  is_favorite : Bool
  deriving Repr, DecidableEq

namespace Recipe

/-- Model of `Recipe.toggleFavorite(username, recipeId)` from `src/models/recipe.js`:
`SELECT id, is_favorite FROM recipes WHERE id = $1 AND username = $2`, throw
`NotFoundError` when no row matches, then
`UPDATE recipes SET is_favorite = $1` with `$1 = !is_favorite` — the UPDATE
statement has no WHERE clause, so it writes every row of the table. -/
def toggleFavorite (recipes : List RecipeRow) (username : String) (recipeId : Nat) :
    Except AppError (List RecipeRow) :=
  match recipes.find? (fun r => r.id == recipeId && r.username == username) with
  | none => .error .notFound
  | some recipe =>
      .ok (recipes.map (fun r => { r with is_favorite := !recipe.is_favorite }))

end Recipe

/-- Mapping a row transformation that does not change the fields a search
predicate reads commutes with `find?`. -/
theorem find?_map_of_pred_eq {α : Type} (f : α → α) (p : α → Bool)
    (hp : ∀ x, p (f x) = p x) (l : List α) :
    (l.map f).find? p = (l.find? p).map f := by
  induction l with
  | nil => rfl
  | cons a l ih =>
      by_cases h : p a
      · simp [List.find?, hp, h]
      · simp only [List.map_cons, List.find?, hp a, h]
        exact ih

/-- C1: `toggleFavorite` is supposed to flip only the addressed recipe's
`is_favorite` flag, but the UPDATE statement has no WHERE clause: toggling
recipe 1 of `u1` (flag `false`) also overwrites recipe 2 of `u1` (flag
`false` becomes `true`) and recipe 3 of `u2` (flag `false` becomes `true`). -/
theorem toggleFavorite_no_where_clobbers_other_rows :
    Recipe.toggleFavorite
      [⟨1, "u1", false⟩, ⟨2, "u1", false⟩, ⟨3, "u2", false⟩] "u1" 1 =
      .ok [⟨1, "u1", true⟩, ⟨2, "u1", true⟩, ⟨3, "u2", true⟩] := by
  rfl

/-- C9: toggling the favorite flag of an existing recipe twice in succession
restores that recipe's `is_favorite` flag to its value before the first
call.  (The missing WHERE clause clobbers other rows, but the addressed
recipe itself round-trips: the second call reads back the negated flag and
negates it again.) -/
theorem toggleFavorite_twice_restores_flag (recipes : List RecipeRow)
    (username : String) (recipeId : Nat) (recipe : RecipeRow)
    (h : recipes.find? (fun r => r.id == recipeId && r.username == username) = some recipe) :
    ∃ t1 t2,
      Recipe.toggleFavorite recipes username recipeId = .ok t1 ∧
      Recipe.toggleFavorite t1 username recipeId = .ok t2 ∧
      (t1.find? (fun r => r.id == recipeId && r.username == username)).map
        (·.is_favorite) = some (!recipe.is_favorite) ∧
      (t2.find? (fun r => r.id == recipeId && r.username == username)).map
        (·.is_favorite) = some recipe.is_favorite := by
  have h1 : Recipe.toggleFavorite recipes username recipeId =
      .ok (recipes.map (fun r => { r with is_favorite := !recipe.is_favorite })) := by
    unfold Recipe.toggleFavorite
    rw [h]
  have hfind1 : (recipes.map
        (fun r => { r with is_favorite := !recipe.is_favorite })).find?
        (fun r => r.id == recipeId && r.username == username) =
      some { recipe with is_favorite := !recipe.is_favorite } := by
    rw [find?_map_of_pred_eq
          (fun r : RecipeRow => { r with is_favorite := !recipe.is_favorite })
          (fun r => r.id == recipeId && r.username == username) (fun x => rfl), h]
    rfl
  have h2 : Recipe.toggleFavorite
      (recipes.map (fun r => { r with is_favorite := !recipe.is_favorite }))
      username recipeId =
      .ok ((recipes.map (fun r => { r with is_favorite := !recipe.is_favorite })).map
        (fun r => { r with is_favorite := !(!recipe.is_favorite) })) := by
    unfold Recipe.toggleFavorite
    rw [hfind1]
  refine ⟨_, _, h1, h2, ?_, ?_⟩
  · rw [hfind1]
    rfl
  · rw [find?_map_of_pred_eq
          (fun r : RecipeRow => { r with is_favorite := !(!recipe.is_favorite) })
          (fun r => r.id == recipeId && r.username == username) (fun x => rfl), hfind1]
    simp

/-- Witness for C9 at a concrete one-row table. -/
theorem toggleFavorite_twice_restores_flag_witness :
    ([(⟨1, "u1", true⟩ : RecipeRow)].find?
        (fun r => r.id == 1 && r.username == "u1") = some ⟨1, "u1", true⟩) ∧
    (∃ t1 t2,
      Recipe.toggleFavorite [(⟨1, "u1", true⟩ : RecipeRow)] "u1" 1 = .ok t1 ∧
      Recipe.toggleFavorite t1 "u1" 1 = .ok t2 ∧
      (t1.find? (fun r => r.id == 1 && r.username == "u1")).map
        (·.is_favorite) = some (!true) ∧
      (t2.find? (fun r => r.id == 1 && r.username == "u1")).map
        (·.is_favorite) = some true) :=
  ⟨by rfl, toggleFavorite_twice_restores_flag _ "u1" 1 ⟨1, "u1", true⟩ (by rfl)⟩

/-- A row of the `categories` table: `{id, username, label, parent_id}`;
`parent_id` is nullable. -/
structure CategoryRow where
  id : Nat
  username : String
  label : String
  parent_id : Option Nat
  deriving Repr, DecidableEq

/-- A row of the `recipes_categories` link table. -/
structure LinkRow where
  recipe_id : Nat
  category_id : Nat
  deriving Repr, DecidableEq

namespace Category

/-- The four canonical root labels (`Category.defaultCategories`). -/
def defaultCategories : List String := ["cuisines", "diets", "courses", "occasions"]

/-- How `Category.create` finishes: the source throws `NotFoundError` /
`BadRequestError`, but in the cross-owner case it executes
`return new UnauthorizedError('Cannot create category.')` — it RETURNS the
error object as the promise's resolved value instead of throwing it. -/
inductive CreateResult where
  | threw (e : AppError)
  | returnedError (e : AppError)
  | created (row : CategoryRow)
  deriving Repr, DecidableEq

/-- Duplicate check and insert of `Category.create`:
`SELECT id FROM categories WHERE parent_id = $1 AND label = $2` (note: no
username scoping, and `parent_id = NULL` is never true under SQL
three-valued logic), throw `BadRequestError` on a match, then INSERT. -/
def createInsert (cats : List CategoryRow) (nextId : Nat) (username label : String)
    (parentId : Option Nat) : CreateResult × List CategoryRow :=
  match cats.find? (fun c => sqlEqOpt c.parent_id parentId && c.label == label) with
  | some _ => (.threw .badRequest, cats)
  | none =>
      let row : CategoryRow := ⟨nextId, username, label, parentId⟩
      (.created row, cats ++ [row])

/-- Model of `Category.create(username, { label, parentId })` from
`src/models/category.js`: when `parentId` is given, check the parent exists
(`NotFoundError`) and belongs to `username` (`return new UnauthorizedError`),
then run the duplicate check and insert. -/
def create (cats : List CategoryRow) (nextId : Nat) (username label : String)
    (parentId : Option Nat) : CreateResult × List CategoryRow :=
  match parentId with
  | some pid =>
      match cats.find? (fun c => c.id == pid) with
      | none => (.threw .notFound, cats)
      | some parent =>
          if parent.username != username then
            (.returnedError .unauthorized, cats)
          else
            createInsert cats nextId username label parentId
  | none => createInsert cats nextId username label parentId

/-- The `{ label?, parentId? }` payload of `Category.update`; `none` models
an absent key. -/
structure UpdateData where
  label : Option String
  parentId : Option Nat
  deriving Repr, DecidableEq

/-- Model of `Category.update(username, id, data)` from `src/models/category.js`:
select the row by id and username (`NotFoundError` if absent), throw
`ForbiddenError` when the current label is a canonical root label with a
null parent, then check `SELECT id FROM categories WHERE label = $1 AND
parent_id = $2` against the effective label/parent (the row being updated is
NOT excluded from this query) and throw `BadRequestError` on a match;
`sqlForPartialUpdate` throws `BadRequestError` when `data` has no keys;
finally `UPDATE categories SET ... WHERE id = $id RETURNING ...`. -/
def update (cats : List CategoryRow) (username : String) (id : Nat)
    (data : UpdateData) : Except AppError CategoryRow × List CategoryRow :=
  match cats.find? (fun c => c.id == id && c.username == username) with
  | none => (.error .notFound, cats)
  | some category =>
      if defaultCategories.contains category.label && category.parent_id == none then
        (.error .forbidden, cats)
      else
        let labelToCheck := data.label.getD category.label
        let parentIdToCheck :=
          match data.parentId with
          | some p => some p
          | none => category.parent_id
        match cats.find? (fun c => c.label == labelToCheck &&
            sqlEqOpt c.parent_id parentIdToCheck) with
        | some _ => (.error .badRequest, cats)
        | none =>
            if data.label == none && data.parentId == none then
              (.error .badRequest, cats)
            else
              let newCats := cats.map (fun c =>
                if c.id == id then
                  { c with
                    label := data.label.getD c.label,
                    parent_id :=
                      match data.parentId with
                      | some p => some p
                      | none => c.parent_id }
                else c)
              match newCats.find? (fun c => c.id == id) with
              | some row => (.ok row, newCats)
              | none => (.error .notFound, newCats)

/-- Is `target` on the ancestor-or-self chain of category `cid`?  Walks the
`parent_id` pointers with explicit fuel (the chain of a well-formed forest is
shorter than the table). -/
def onParentChain (cats : List CategoryRow) : Nat → Nat → Nat → Bool
  | 0, _, _ => false
  | fuel + 1, cid, target =>
      cid == target ||
      match cats.find? (fun c => c.id == cid) with
      | some c =>
          match c.parent_id with
          | some p => onParentChain cats fuel p target
          | none => false
      | none => false

/-- Storage-layer cascade of `DELETE FROM categories WHERE id = $1` under the
schema's `parent_id REFERENCES categories ON DELETE CASCADE` and
`recipes_categories.category_id REFERENCES categories ON DELETE CASCADE`:
every category whose ancestor-or-self chain reaches the deleted id goes away,
and so does every link row pointing at a deleted category. -/
def cascadeDelete (cats : List CategoryRow) (links : List LinkRow) (id : Nat) :
    List CategoryRow × List LinkRow :=
  let deletedIds := (cats.filter
    (fun c => onParentChain cats (cats.length + 1) c.id id)).map (·.id)
  (cats.filter (fun c => !(onParentChain cats (cats.length + 1) c.id id)),
   links.filter (fun l => !(deletedIds.contains l.category_id)))

/-- Model of `Category.remove(username, id)` from `src/models/category.js`: select the
row by id and username (`NotFoundError` if absent), throw `ForbiddenError`
when it is a canonical root, then `DELETE FROM categories WHERE id = $1`
with the schema cascade. -/
def remove (cats : List CategoryRow) (links : List LinkRow) (username : String)
    (id : Nat) : Except AppError Unit × List CategoryRow × List LinkRow :=
  match cats.find? (fun c => c.id == id && c.username == username) with
  | none => (.error .notFound, cats, links)
  | some category =>
      if defaultCategories.contains category.label && category.parent_id == none then
        (.error .forbidden, cats, links)
      else
        let res := cascadeDelete cats links id
        (.ok (), res.1, res.2)

end Category

/-- C2: `Category.create` is supposed to reject a duplicate label at root
level for the same owner, but its duplicate query compares
`parent_id = NULL`, which SQL never satisfies: with a root category
`cakes` already present for `u1`, creating `cakes` again at root level for
`u1` raises no error and inserts a second identical root. -/
theorem category_create_duplicate_root_label_not_rejected :
    Category.create [⟨1, "u1", "cakes", none⟩] 2 "u1" "cakes" none =
      (.created ⟨2, "u1", "cakes", none⟩,
       [⟨1, "u1", "cakes", none⟩, ⟨2, "u1", "cakes", none⟩]) := by
  rfl

/-- C3: when the parent category belongs to a different user,
`Category.create` executes `return new UnauthorizedError(...)` instead of
`throw`: the UnauthorizedError is the promise's resolved value, so no error
propagates to the caller; no row is inserted. -/
theorem category_create_cross_owner_returns_instead_of_throws :
    Category.create [⟨1, "u1", "cuisines", none⟩] 2 "u2" "italian" (some 1) =
      (.returnedError .unauthorized, [⟨1, "u1", "cuisines", none⟩]) := by
  rfl

/-- C8: when the addressed category is one of the four canonical roots
(label among `cuisines`/`diets`/`courses`/`occasions` with a null parent),
both `Category.update` and `Category.remove` throw `ForbiddenError` and
leave the table unchanged; removing a non-canonical category succeeds and
cascades to its descendants and to the recipe links of every deleted
category. -/
theorem category_canonical_roots_protected (cats : List CategoryRow)
    (links : List LinkRow) (username : String) (id : Nat)
    (category : CategoryRow) (data : Category.UpdateData)
    (h : cats.find? (fun c => c.id == id && c.username == username) = some category) :
    ((Category.defaultCategories.contains category.label ∧ category.parent_id = none) →
      Category.update cats username id data = (.error .forbidden, cats) ∧
      Category.remove cats links username id = (.error .forbidden, cats, links)) ∧
    (¬ (Category.defaultCategories.contains category.label ∧ category.parent_id = none) →
      Category.remove cats links username id =
        (.ok (), (Category.cascadeDelete cats links id).1,
         (Category.cascadeDelete cats links id).2)) := by
  have hcond : ∀ b : Bool,
      (Category.defaultCategories.contains category.label ∧ category.parent_id = none) ∨
      ((Category.defaultCategories.contains category.label &&
        (category.parent_id == none)) = false) := by
    intro _
    by_cases h1 : Category.defaultCategories.contains category.label
    · by_cases h2 : category.parent_id = none
      · exact Or.inl ⟨h1, h2⟩
      · refine Or.inr ?_
        rw [beq_eq_false_iff_ne.mpr h2, Bool.and_false]
    · refine Or.inr ?_
      rw [Bool.eq_false_iff.mpr h1, Bool.false_and]
  constructor
  · rintro ⟨hc, hp⟩
    have hb : (Category.defaultCategories.contains category.label &&
        (category.parent_id == none)) = true := by
      rw [hc, Bool.true_and, hp]
      rfl
    constructor
    · unfold Category.update
      rw [h]
      simp only [hb, if_true]
    · unfold Category.remove
      rw [h]
      simp only [hb, if_true]
  · intro hnc
    have hb : (Category.defaultCategories.contains category.label &&
        (category.parent_id == none)) = false := by
      rcases hcond true with hcase | hcase
      · exact absurd hcase hnc
      · exact hcase
    unfold Category.remove
    rw [h]
    simp only [hb, Bool.false_eq_true, if_false]

/-- Witness for C8: updating or removing the canonical root `cuisines` of
`u1` is forbidden and changes nothing. -/
theorem category_canonical_roots_protected_witness :
    Category.update [⟨1, "u1", "cuisines", none⟩] "u1" 1 ⟨some "x", none⟩ =
      (.error .forbidden, [⟨1, "u1", "cuisines", none⟩]) ∧
    Category.remove [⟨1, "u1", "cuisines", none⟩] [] "u1" 1 =
      (.error .forbidden, [⟨1, "u1", "cuisines", none⟩], []) :=
  (category_canonical_roots_protected [⟨1, "u1", "cuisines", none⟩] [] "u1" 1
      ⟨1, "u1", "cuisines", none⟩ ⟨some "x", none⟩ (by rfl)).1
    ⟨by decide, rfl⟩

/-- C10: for an existing non-root category, `Category.update` with an
effective (label, parent) pair equal to the current one throws the
duplicate-label `BadRequestError` instead of succeeding as a no-op: the
sibling-uniqueness query does not exclude the row being updated, so the row
finds itself. -/
theorem category_update_self_duplicate (cats : List CategoryRow)
    (username : String) (id p : Nat) (category : CategoryRow)
    (data : Category.UpdateData)
    (h : cats.find? (fun c => c.id == id && c.username == username) = some category)
    (hp : category.parent_id = some p)
    (hl : data.label = none ∨ data.label = some category.label)
    (hpd : data.parentId = none ∨ data.parentId = some p) :
    Category.update cats username id data = (.error .badRequest, cats) := by
  have hmem : category ∈ cats := List.mem_of_find?_eq_some h
  have hforb : (Category.defaultCategories.contains category.label &&
      (category.parent_id == none)) = false := by
    simp [hp]
  have hLtc : data.label.getD category.label = category.label := by
    rcases hl with h1 | h1 <;> simp [h1]
  have hPtc : (match data.parentId with
      | some q => some q
      | none => category.parent_id) = some p := by
    rcases hpd with h1 | h1 <;> simp [h1, hp]
  unfold Category.update
  rw [h]
  simp only [hforb, Bool.false_eq_true, if_false, hLtc, hPtc]
  have hdup : (cats.find? (fun c => c.label == category.label &&
      sqlEqOpt c.parent_id (some p))).isSome := by
    rw [List.find?_isSome]
    exact ⟨category, hmem, by simp [sqlEqOpt, hp]⟩
  rcases hopt : cats.find? (fun c => c.label == category.label &&
      sqlEqOpt c.parent_id (some p)) with _ | c
  · rw [hopt] at hdup
    simp at hdup
  · rw [hopt]

/-- Witness for C10: re-submitting the current label of the non-root
category `italian` throws `BadRequestError`. -/
theorem category_update_self_duplicate_witness :
    Category.update [⟨1, "u1", "cuisines", none⟩, ⟨2, "u1", "italian", some 1⟩]
      "u1" 2 ⟨some "italian", none⟩ =
      (.error .badRequest,
       [⟨1, "u1", "cuisines", none⟩, ⟨2, "u1", "italian", some 1⟩]) :=
  category_update_self_duplicate _ "u1" 2 1 ⟨2, "u1", "italian", some 1⟩
    ⟨some "italian", none⟩ (by rfl) rfl (Or.inr rfl) (Or.inl rfl)

/-- A row of the `instructions` table: `{id, recipe_id, ordinal, step}`. -/
structure InstructionRow where
  id : Nat
  recipe_id : Nat
  ordinal : Nat
  step : String
  deriving Repr, DecidableEq

/-- The `instructions` table together with the next value of its `id`
sequence (`SERIAL PRIMARY KEY`). -/
structure InstrState where
  rows : List InstructionRow
  nextId : Nat
  deriving Repr, DecidableEq

namespace Instruction

/-- Model of `Instruction._getCount(recipeId)`:
`SELECT COUNT(*) FROM instructions WHERE recipe_id = $1`. -/
def _getCount (st : InstrState) (recipeId : Nat) : Nat :=
  (st.rows.filter (fun r => r.recipe_id == recipeId)).length

/-- The rows inserted by `Instruction._createMultiple`: one row per step,
ids from the serial sequence, ordinals `start, start+1, ...`. -/
def mkRows (nextId recipeId start : Nat) : List String → List InstructionRow
  | [] => []
  | text :: rest => ⟨nextId, recipeId, start, text⟩ :: mkRows (nextId + 1) recipeId (start + 1) rest

/-- Model of `Instruction._createSingle(recipeId, step, order)`: one INSERT returning
the new row. -/
def _createSingle (st : InstrState) (recipeId : Nat) (step : String) (order : Nat) :
    InstructionRow × InstrState :=
  let row : InstructionRow := ⟨st.nextId, recipeId, order, step⟩
  (row, ⟨st.rows ++ [row], st.nextId + 1⟩)

/-- Model of `Instruction._createMultiple(recipeId, steps, startingOrder)`: one INSERT
per step, ordinal `i + startingOrder` for the i-th step. -/
def _createMultiple (st : InstrState) (recipeId : Nat) (steps : List String)
    (startingOrder : Nat) : List InstructionRow × InstrState :=
  match steps with
  | [] => ([], st)
  | text :: rest =>
      let row : InstructionRow := ⟨st.nextId, recipeId, startingOrder, text⟩
      let res := _createMultiple ⟨st.rows ++ [row], st.nextId + 1⟩ recipeId rest
        (startingOrder + 1)
      (row :: res.1, res.2)

/-- Model of `Instruction.create(recipeId, data)`: `startingOrder = currentCount + 1`;
a string input takes the `_createSingle` path and yields one record, an
array input takes the `_createMultiple` path and yields an array. -/
def create (st : InstrState) (recipeId : Nat) (data : String ⊕ List String) :
    (InstructionRow ⊕ List InstructionRow) × InstrState :=
  let startingOrder := _getCount st recipeId + 1
  match data with
  | .inl step =>
      let res := _createSingle st recipeId step startingOrder
      (.inl res.1, res.2)
  | .inr steps =>
      let res := _createMultiple st recipeId steps startingOrder
      (.inr res.1, res.2)

/-- Model of `Instruction.getAll(recipeId)` (the `ingredient_measures`-era variant):
`SELECT ... FROM instructions WHERE recipe_id = $1`. -/
def getAll (st : InstrState) (recipeId : Nat) : List InstructionRow :=
  st.rows.filter (fun r => r.recipe_id == recipeId)

/-- The `ORDER BY ordinal` of the SELECT in `_removeOrCreate`. -/
def orderByOrdinal (rows : List InstructionRow) : List InstructionRow :=
  List.insertionSort (fun a b => a.ordinal ≤ b.ordinal) rows

/-- Model of `Instruction.remove(id)`: `DELETE FROM instructions WHERE id = $1`,
`NotFoundError` when nothing was deleted. -/
def remove (st : InstrState) (id : Nat) : Except AppError InstrState :=
  if st.rows.any (fun r => r.id == id) then
    .ok ⟨st.rows.filter (fun r => !(r.id == id)), st.nextId⟩
  else
    .error .notFound

/-- The `Promise.all(instructionsToDelete.map(id => this.remove(id)))` of
`_removeOrCreate`, sequentialised. -/
def removeAll (st : InstrState) : List Nat → Except AppError InstrState
  | [] => .ok st
  | id :: rest =>
      match remove st id with
      | .error e => .error e
      | .ok st2 => removeAll st2 rest

/-- Model of `Instruction._removeOrCreate(recipeId, instructions)`: compares the new
list against the existing rows (ordered by ordinal).  If the new list is
longer, the surplus tail is created through `create` (which starts at
`currentCount + 1`); if shorter, the trailing old rows are deleted; the
prefix to overwrite in place is returned. -/
def _removeOrCreate (st : InstrState) (recipeId : Nat) (instructions : List String) :
    Except AppError (List String × List InstructionRow × InstrState) :=
  let oldInstructions :=
    (orderByOrdinal (st.rows.filter (fun r => r.recipe_id == recipeId))).map (·.id)
  if oldInstructions.length < instructions.length then
    let instructionsToUpdate := instructions.take oldInstructions.length
    let res := create st recipeId (.inr (instructions.drop oldInstructions.length))
    let createdInstructions :=
      match res.1 with
      | .inl r => [r]
      | .inr rs => rs
    .ok (instructionsToUpdate, createdInstructions, res.2)
  else if instructions.length < oldInstructions.length then
    let instructionsToDelete := oldInstructions.drop instructions.length
    match removeAll st instructionsToDelete with
    | .error e => .error e
    | .ok st2 => .ok (instructions, [], st2)
  else
    .ok (instructions, [], st)

/-- The per-position UPDATE loop of `Instruction.update` /
`_updateMultiple`: for the i-th step (0-based), `UPDATE instructions SET
step = $1 WHERE recipe_id = $3 AND ordinal = $2` with `$2 = i + 1`; the
`RETURNING` row of each UPDATE is collected (possibly `undefined` in the
source when no row matched, hence `Option`). -/
def _updateLoop (st : InstrState) (recipeId : Nat) :
    List String → Nat → List (Option InstructionRow) × InstrState
  | [], _ => ([], st)
  | s :: rest, ord =>
      let newRows := st.rows.map (fun r =>
        if r.recipe_id == recipeId && r.ordinal == ord then { r with step := s } else r)
      let updated := newRows.find? (fun r => r.recipe_id == recipeId && r.ordinal == ord)
      let res := _updateLoop ⟨newRows, st.nextId⟩ recipeId rest (ord + 1)
      (updated :: res.1, res.2)

/-- Model of `Instruction.update(recipeId, instructions)` (named `_updateMultiple` in
the `ingredient_measures`-era variant): `_removeOrCreate`, then the in-place
UPDATE loop from ordinal 1, returning updated then created rows. -/
def update (st : InstrState) (recipeId : Nat) (instructions : List String) :
    Except AppError (List (Option InstructionRow) × InstrState) :=
  match _removeOrCreate st recipeId instructions with
  | .error e => .error e
  | .ok (instructionsToUpdate, createdInstructions, st2) =>
      let res := _updateLoop st2 recipeId instructionsToUpdate 1
      .ok (res.1 ++ createdInstructions.map some, res.2)

end Instruction

/-- Mapping a row transformation that does not change the fields a filter
predicate reads commutes with `filter`. -/
theorem filter_map_of_pred_eq {α : Type} (f : α → α) (p : α → Bool)
    (hp : ∀ x, p (f x) = p x) (l : List α) :
    (l.map f).filter p = (l.filter p).map f := by
  induction l with
  | nil => rfl
  | cons a l ih =>
      by_cases h : p a
      · simp only [List.map_cons, List.filter_cons, hp a, h, if_true, ih]
      · simp only [List.map_cons, List.filter_cons, hp a, h, if_false, ih,
          Bool.false_eq_true]

theorem mkRows_eq_createMultiple (recipeId : Nat) (steps : List String) :
    ∀ (st : InstrState) (start : Nat),
    Instruction._createMultiple st recipeId steps start =
      (Instruction.mkRows st.nextId recipeId start steps,
       ⟨st.rows ++ Instruction.mkRows st.nextId recipeId start steps,
        st.nextId + steps.length⟩) := by
  induction steps with
  | nil => intro st start; simp [Instruction._createMultiple, Instruction.mkRows]
  | cons s rest ih =>
      intro st start
      simp only [Instruction._createMultiple, Instruction.mkRows, ih,
        List.length_cons]
      rw [Prod.mk.injEq, InstrState.mk.injEq]
      refine ⟨rfl, ?_, by omega⟩
      simp [List.append_assoc]

theorem mkRows_map_ordinal (recipeId : Nat) (steps : List String) :
    ∀ (nextId start : Nat),
    (Instruction.mkRows nextId recipeId start steps).map (·.ordinal) =
      List.range' start steps.length := by
  induction steps with
  | nil => intro nextId start; rfl
  | cons s rest ih =>
      intro nextId start
      simp [Instruction.mkRows, List.range'_succ, ih]

theorem mkRows_map_step (recipeId : Nat) (steps : List String) :
    ∀ (nextId start : Nat),
    (Instruction.mkRows nextId recipeId start steps).map (·.step) = steps := by
  induction steps with
  | nil => intro nextId start; rfl
  | cons s rest ih =>
      intro nextId start
      simp [Instruction.mkRows, ih]

theorem mkRows_recipe_id (recipeId : Nat) (steps : List String) :
    ∀ (nextId start : Nat) (r : InstructionRow),
    r ∈ Instruction.mkRows nextId recipeId start steps → r.recipe_id = recipeId := by
  induction steps with
  | nil => intro nextId start r h; cases h
  | cons s rest ih =>
      intro nextId start r h
      rcases List.mem_cons.mp h with h1 | h1
      · rw [h1]
      · exact ih _ _ r h1

theorem mkRows_filter_self (recipeId : Nat) (steps : List String)
    (nextId start : Nat) :
    (Instruction.mkRows nextId recipeId start steps).filter
      (fun r => r.recipe_id == recipeId) = Instruction.mkRows nextId recipeId start steps := by
  rw [List.filter_eq_self]
  intro r hr
  simp [mkRows_recipe_id recipeId steps nextId start r hr]

/-- C7: `Instruction.create` appends after the current count: a single
(string) item becomes one record with ordinal `currentCount + 1`, and a
list of items becomes an array of records, in input order, with ordinals
`currentCount + 1, currentCount + 2, ...` — the result shape mirrors the
input arity. -/
theorem instruction_create_appends_after_count (st : InstrState) (recipeId : Nat)
    (step : String) (steps : List String) :
    (∃ row st',
      Instruction.create st recipeId (.inl step) = (.inl row, st') ∧
      row.ordinal = Instruction._getCount st recipeId + 1 ∧
      row.step = step) ∧
    (∃ rows st',
      Instruction.create st recipeId (.inr steps) = (.inr rows, st') ∧
      rows.map (·.ordinal) =
        List.range' (Instruction._getCount st recipeId + 1) steps.length ∧
      rows.map (·.step) = steps) := by
  constructor
  · exact ⟨_, _, rfl, rfl, rfl⟩
  · refine ⟨_, _, rfl, ?_, ?_⟩
    · show ((Instruction._createMultiple st recipeId steps
          (Instruction._getCount st recipeId + 1)).1.map (·.ordinal)) = _
      rw [mkRows_eq_createMultiple, mkRows_map_ordinal]
    · show ((Instruction._createMultiple st recipeId steps
          (Instruction._getCount st recipeId + 1)).1.map (·.step)) = _
      rw [mkRows_eq_createMultiple, mkRows_map_step]

/-- Combined effect of the sequential per-ordinal UPDATE loop on one row:
rows of the recipe whose ordinal falls in `[ord0, ord0 + steps.length)` get
their step replaced by the corresponding element of `steps`. -/
def stepOverride (recipeId : Nat) (steps : List String) (ord0 : Nat)
    (r : InstructionRow) : InstructionRow :=
  if r.recipe_id = recipeId ∧ ord0 ≤ r.ordinal ∧ r.ordinal < ord0 + steps.length then
    { r with step := steps.getD (r.ordinal - ord0) r.step }
  else r

theorem stepOverride_id (recipeId : Nat) (steps : List String) (ord0 : Nat)
    (r : InstructionRow) : (stepOverride recipeId steps ord0 r).id = r.id := by
  unfold stepOverride
  split <;> rfl

theorem stepOverride_ordinal (recipeId : Nat) (steps : List String) (ord0 : Nat)
    (r : InstructionRow) : (stepOverride recipeId steps ord0 r).ordinal = r.ordinal := by
  unfold stepOverride
  split <;> rfl

theorem stepOverride_recipe (recipeId : Nat) (steps : List String) (ord0 : Nat)
    (r : InstructionRow) : (stepOverride recipeId steps ord0 r).recipe_id = r.recipe_id := by
  unfold stepOverride
  split <;> rfl

theorem updateLoop_state (recipeId : Nat) (steps : List String) :
    ∀ (st : InstrState) (ord0 : Nat),
    (Instruction._updateLoop st recipeId steps ord0).2 =
      ⟨st.rows.map (stepOverride recipeId steps ord0), st.nextId⟩ := by
  induction steps with
  | nil =>
      intro st ord0
      have h1 : ∀ r ∈ st.rows, stepOverride recipeId [] ord0 r = id r := by
        intro r _
        unfold stepOverride
        rw [if_neg (by rintro ⟨-, h2, h3⟩; simp at h3; omega)]
        rfl
      show st = _
      rw [List.map_congr_left h1, List.map_id]
  | cons s rest ih =>
      intro st ord0
      show (Instruction._updateLoop _ recipeId rest (ord0 + 1)).2 = _
      rw [ih]
      have hpt : ∀ r ∈ st.rows,
          stepOverride recipeId rest (ord0 + 1)
            (if r.recipe_id == recipeId && r.ordinal == ord0
             then { r with step := s } else r) =
          stepOverride recipeId (s :: rest) ord0 r := by
        intro r _
        by_cases hrid : r.recipe_id = recipeId
        · by_cases hord : r.ordinal = ord0
          · rw [if_pos (by simp [hrid, hord])]
            unfold stepOverride
            rw [if_neg (by rintro ⟨-, h2, -⟩; simp at h2; omega),
                if_pos ⟨hrid, by omega, by simp [hord]⟩]
            simp [hord]
          · rw [if_neg (by simp [hord])]
            unfold stepOverride
            by_cases hin : ord0 + 1 ≤ r.ordinal ∧ r.ordinal < ord0 + 1 + rest.length
            · rw [if_pos ⟨hrid, hin.1, by simpa using hin.2⟩,
                  if_pos ⟨hrid, by omega, by simp; omega⟩]
              have harith : r.ordinal - ord0 = (r.ordinal - (ord0 + 1)) + 1 := by omega
              rw [harith, List.getD_cons_succ]
            · rw [if_neg (by rintro ⟨-, h2, h3⟩; exact hin ⟨h2, by simpa using h3⟩),
                  if_neg (by rintro ⟨-, h2, h3⟩; simp at h3
                             exact hin ⟨by omega, by omega⟩)]
        · rw [if_neg (by simp [hrid])]
          unfold stepOverride
          rw [if_neg (by rintro ⟨h1, -, -⟩; exact hrid h1),
              if_neg (by rintro ⟨h1, -, -⟩; exact hrid h1)]
      simp only [List.map_map]
      exact congrArg (fun rows => InstrState.mk rows st.nextId)
        (List.map_congr_left (fun r hr => hpt r hr))

/-- Effect of the ordinal-1-based step override on a block of rows of the
recipe whose ordinals are consecutive from `a`: each row's step becomes the
matching element of `steps`. -/
theorem map_stepOverride_pairs (recipeId : Nat) (steps : List String) :
    ∀ (rows : List InstructionRow) (a : Nat), 0 < a →
    rows.map (·.ordinal) = List.range' a rows.length →
    (∀ r ∈ rows, r.recipe_id = recipeId) →
    a - 1 + rows.length ≤ steps.length →
    (rows.map (stepOverride recipeId steps 1)).map (fun r => (r.ordinal, r.step)) =
      (List.range' a rows.length).zip ((steps.drop (a - 1)).take rows.length) := by
  intro rows
  induction rows with
  | nil => intro a _ _ _ _; rfl
  | cons r rest ih =>
      intro a ha hord hrid hbound
      simp only [List.length_cons, List.range'_succ _ _ 1, List.map_cons,
        List.cons.injEq] at hord
      obtain ⟨hr, hrest⟩ := hord
      have hidx : a - 1 < steps.length := by
        simp only [List.length_cons] at hbound
        omega
      have hover : stepOverride recipeId steps 1 r =
          { r with step := steps.getD (r.ordinal - 1) r.step } := by
        unfold stepOverride
        rw [if_pos ⟨hrid r (List.mem_cons_self r rest), by rw [hr]; omega,
          by rw [hr]; simp only [List.length_cons] at hbound; omega⟩]
      have hdrop : steps.drop (a - 1) = steps[a - 1] :: steps.drop a := by
        have harith : a - 1 + 1 = a := by omega
        rw [List.drop_eq_getElem_cons hidx, harith]
      rw [List.map_cons, List.map_cons, hover, List.length_cons,
        List.range'_succ a rest.length 1, hdrop, List.take_succ_cons,
        List.zip_cons_cons]
      congr 1
      · show (r.ordinal, steps.getD (r.ordinal - 1) r.step) = _
        rw [hr, List.getD_eq_getElem steps r.step hidx]
      · have := ih (a + 1) (by omega) hrest
          (fun x hx => hrid x (List.mem_cons_of_mem r hx))
          (by simp only [List.length_cons] at hbound; omega)
        simpa using this
  
/-- Rows whose ordinals all lie beyond `steps.length` are untouched by the
ordinal-1-based step override. -/
theorem map_stepOverride_of_ordinals_big (recipeId : Nat) (steps : List String)
    (rows : List InstructionRow)
    (h : ∀ r ∈ rows, steps.length < r.ordinal) :
    rows.map (stepOverride recipeId steps 1) = rows := by
  have h1 : ∀ r ∈ rows, stepOverride recipeId steps 1 r = id r := by
    intro r hr
    unfold stepOverride
    rw [if_neg (by rintro ⟨-, -, h3⟩; have := h r hr; omega)]
    rfl
  rw [List.map_congr_left h1, List.map_id]

/-- The step override preserves ids. -/
theorem map_stepOverride_map_id (recipeId : Nat) (steps : List String)
    (ord0 : Nat) (rows : List InstructionRow) :
    (rows.map (stepOverride recipeId steps ord0)).map (·.id) = rows.map (·.id) := by
  rw [List.map_map]
  exact List.map_congr_left (fun r _ => stepOverride_id recipeId steps ord0 r)

/-- A block of rows listed in increasing ordinal order is already sorted, so
the `ORDER BY ordinal` of `_removeOrCreate` returns it unchanged. -/
theorem orderByOrdinal_eq_self (rows : List InstructionRow) (a : Nat)
    (h : rows.map (·.ordinal) = List.range' a rows.length) :
    Instruction.orderByOrdinal rows = rows := by
  unfold Instruction.orderByOrdinal
  refine List.Sorted.insertionSort_eq ?_
  have hpw : List.Pairwise (· < ·) (rows.map (·.ordinal)) := by
    rw [h]
    exact List.pairwise_lt_range' a rows.length
  exact List.Pairwise.imp (fun hlt => Nat.le_of_lt hlt) ((List.pairwise_map).mp hpw)

/-- Deleting a list of distinct, present ids one at a time succeeds and
filters exactly those rows out. -/
theorem removeAll_ok (ids : List Nat) :
    ∀ (st : InstrState), ids.Nodup →
    (∀ i ∈ ids, ∃ r ∈ st.rows, r.id = i) →
    Instruction.removeAll st ids =
      .ok ⟨st.rows.filter (fun r => !(ids.contains r.id)), st.nextId⟩ := by
  induction ids with
  | nil =>
      intro st _ _
      simp [Instruction.removeAll]
  | cons d rest ih =>
      intro st hnd hpres
      have hany : st.rows.any (fun r => r.id == d) = true := by
        rcases hpres d (List.mem_cons_self d rest) with ⟨r, hr, hid⟩
        exact List.any_eq_true.mpr ⟨r, hr, by simp [hid]⟩
      unfold Instruction.removeAll
      unfold Instruction.remove
      rw [if_pos hany]
      have hpres2 : ∀ i ∈ rest,
          ∃ r ∈ (st.rows.filter (fun r => !(r.id == d))), r.id = i := by
        intro i hi
        rcases hpres i (List.mem_cons_of_mem d hi) with ⟨r, hr, hid⟩
        have hne : i ≠ d := fun he => (List.nodup_cons.mp hnd).1 (he ▸ hi)
        exact ⟨r, List.mem_filter.mpr ⟨hr, by simp [hid, hne]⟩, hid⟩
      show Instruction.removeAll
        ⟨st.rows.filter (fun r => !(r.id == d)), st.nextId⟩ rest = _
      rw [ih ⟨st.rows.filter (fun r => !(r.id == d)), st.nextId⟩
            (List.nodup_cons.mp hnd).2 hpres2]
      show Except.ok (InstrState.mk _ _) = Except.ok (InstrState.mk _ _)
      rw [List.filter_filter]
      refine congrArg _ (congrArg (fun l => InstrState.mk l st.nextId)
        (List.filter_congr (fun r _ => ?_)))
      show (!(rest.contains r.id) && !(r.id == d)) = !((d :: rest).contains r.id)
      rw [List.contains_cons, Bool.not_or, Bool.and_comm]

/-- With distinct ids, filtering out the ids of the rows after position `N`
keeps exactly the first `N` rows. -/
theorem filter_not_contains_drop (rows : List InstructionRow) (N : Nat)
    (hnd : (rows.map (·.id)).Nodup) :
    rows.filter (fun r => !(((rows.map (·.id)).drop N).contains r.id)) =
      rows.take N := by
  set ids := (rows.map (·.id)).drop N with hids
  have h1 : (rows.take N).filter (fun r => !(ids.contains r.id)) = rows.take N := by
    rw [List.filter_eq_self]
    intro r hr
    have hmemid : r.id ∈ (rows.map (·.id)).take N := by
      rw [← List.map_take]
      exact List.mem_map_of_mem _ hr
    have hnotin : r.id ∉ ids := by
      rw [hids]
      have hsplit := hnd
      rw [← List.take_append_drop N (rows.map (·.id))] at hsplit
      exact (List.nodup_append.mp hsplit).2.2 hmemid
    have hc : ids.contains r.id = false :=
      Bool.eq_false_iff.mpr (fun hc => hnotin (List.elem_iff.mp hc))
    rw [hc]
    rfl
  have h2 : (rows.drop N).filter (fun r => !(ids.contains r.id)) = [] := by
    rw [List.filter_eq_nil_iff]
    intro r hr
    have hmem : r.id ∈ ids := by
      rw [hids, ← List.map_drop]
      exact List.mem_map_of_mem _ hr
    simpa using hmem
  have hsplit : rows.filter (fun r => !(ids.contains r.id)) =
      (rows.take N ++ rows.drop N).filter (fun r => !(ids.contains r.id)) := by
    rw [List.take_append_drop]
  rw [hsplit, List.filter_append, h1, h2, List.append_nil]

theorem mkRows_ordinal_ge (recipeId : Nat) (steps : List String) :
    ∀ (nextId start : Nat) (r : InstructionRow),
    r ∈ Instruction.mkRows nextId recipeId start steps → start ≤ r.ordinal := by
  induction steps with
  | nil => intro nextId start r h; cases h
  | cons s rest ih =>
      intro nextId start r h
      rcases List.mem_cons.mp h with h1 | h1
      · rw [h1]
      · exact Nat.le_of_succ_le (ih _ _ r h1)

theorem mkRows_map_pair (recipeId : Nat) (steps : List String) :
    ∀ (nextId start : Nat),
    (Instruction.mkRows nextId recipeId start steps).map (fun r => (r.ordinal, r.step)) =
      (List.range' start steps.length).zip steps := by
  induction steps with
  | nil => intro nextId start; rfl
  | cons s rest ih =>
      intro nextId start
      simp [Instruction.mkRows, List.range'_succ, ih]

theorem take_range' (s n m : Nat) :
    (List.range' s n).take m = List.range' s (min m n) := by
  induction n generalizing s m with
  | zero => simp
  | succ k ih =>
      cases m with
      | zero => simp
      | succ m' => simp [List.range'_succ, List.take_succ_cons, ih, Nat.succ_min_succ]

/-- Splitting a position-value zip at position `n`. -/
theorem zip_range'_take_drop {α : Type} (s n : Nat) (xs : List α)
    (hn : n ≤ xs.length) :
    (List.range' s xs.length).zip xs =
      (List.range' s n).zip (xs.take n) ++
      (List.range' (s + n) (xs.length - n)).zip (xs.drop n) := by
  have h1 : List.range' s xs.length =
      List.range' s n ++ List.range' (s + n) (xs.length - n) := by
    rw [List.range'_append_1 s n (xs.length - n)]
    congr 1
    omega
  conv_lhs => rw [h1, ← List.take_append_drop n xs]
  rw [List.zip_append (by
    rw [List.length_range', List.length_take]
    omega)]
  rw [List.take_append_drop]

theorem instruction_update_grow (st : InstrState) (recipeId : Nat)
    (items : List String)
    (hdense : (st.rows.filter (fun r => r.recipe_id == recipeId)).map (·.ordinal) =
      List.range' 1 (st.rows.filter (fun r => r.recipe_id == recipeId)).length)
    (hlt : (st.rows.filter (fun r => r.recipe_id == recipeId)).length < items.length) :
    ∃ ret st',
      Instruction.update st recipeId items = .ok (ret, st') ∧
      (Instruction.getAll st' recipeId).map (fun r => (r.ordinal, r.step)) =
        (List.range' 1 items.length).zip items ∧
      ((Instruction.getAll st' recipeId).map (·.id)).take
          (min (Instruction._getCount st recipeId) items.length) =
        ((Instruction.getAll st recipeId).map (·.id)).take
          (min (Instruction._getCount st recipeId) items.length) := by
  have hsort : Instruction.orderByOrdinal
      (st.rows.filter (fun r => r.recipe_id == recipeId)) =
      st.rows.filter (fun r => r.recipe_id == recipeId) :=
    orderByOrdinal_eq_self _ 1 hdense
  have hmemrid : ∀ r ∈ st.rows.filter (fun r => r.recipe_id == recipeId),
      r.recipe_id = recipeId := by
    intro r hr
    simpa using List.of_mem_filter hr
  have h1 : Instruction._removeOrCreate st recipeId items =
      .ok (items.take (st.rows.filter (fun r => r.recipe_id == recipeId)).length,
           Instruction.mkRows st.nextId recipeId
             ((st.rows.filter (fun r => r.recipe_id == recipeId)).length + 1)
             (items.drop (st.rows.filter (fun r => r.recipe_id == recipeId)).length),
           ⟨st.rows ++ Instruction.mkRows st.nextId recipeId
             ((st.rows.filter (fun r => r.recipe_id == recipeId)).length + 1)
             (items.drop (st.rows.filter (fun r => r.recipe_id == recipeId)).length),
            st.nextId +
              (items.drop
                (st.rows.filter (fun r => r.recipe_id == recipeId)).length).length⟩) := by
    simp only [Instruction._removeOrCreate]
    rw [hsort]
    simp only [List.length_map]
    rw [if_pos hlt]
    simp only [Instruction.create]
    rw [mkRows_eq_createMultiple]
    rfl
  refine ⟨(Instruction._updateLoop
      ⟨st.rows ++ Instruction.mkRows st.nextId recipeId
          ((st.rows.filter (fun r => r.recipe_id == recipeId)).length + 1)
          (items.drop (st.rows.filter (fun r => r.recipe_id == recipeId)).length),
        st.nextId +
          (items.drop (st.rows.filter (fun r => r.recipe_id == recipeId)).length).length⟩
      recipeId
      (items.take (st.rows.filter (fun r => r.recipe_id == recipeId)).length) 1).1 ++
      (Instruction.mkRows st.nextId recipeId
        ((st.rows.filter (fun r => r.recipe_id == recipeId)).length + 1)
        (items.drop (st.rows.filter (fun r => r.recipe_id == recipeId)).length)).map some,
    ⟨(st.rows ++ Instruction.mkRows st.nextId recipeId
        ((st.rows.filter (fun r => r.recipe_id == recipeId)).length + 1)
        (items.drop (st.rows.filter (fun r => r.recipe_id == recipeId)).length)).map
          (stepOverride recipeId
            (items.take (st.rows.filter (fun r => r.recipe_id == recipeId)).length) 1),
      st.nextId +
        (items.drop (st.rows.filter (fun r => r.recipe_id == recipeId)).length).length⟩,
    ?_, ?_, ?_⟩
  · unfold Instruction.update
    rw [h1]
    show Except.ok (_, (Instruction._updateLoop _ recipeId _ 1).2) = _
    rw [updateLoop_state]
  · show ((((st.rows ++ Instruction.mkRows st.nextId recipeId
          ((st.rows.filter (fun r => r.recipe_id == recipeId)).length + 1)
          (items.drop (st.rows.filter (fun r => r.recipe_id == recipeId)).length)).map
            (stepOverride recipeId
              (items.take (st.rows.filter (fun r => r.recipe_id == recipeId)).length)
              1)).filter
          (fun r => r.recipe_id == recipeId)).map (fun r => (r.ordinal, r.step))) = _
    rw [filter_map_of_pred_eq
          (stepOverride recipeId
            (items.take (st.rows.filter (fun r => r.recipe_id == recipeId)).length) 1)
          (fun r => r.recipe_id == recipeId)
          (fun x => by simp only [stepOverride_recipe]),
        List.filter_append, mkRows_filter_self, List.map_append, List.map_append,
        map_stepOverride_of_ordinals_big recipeId
          (items.take (st.rows.filter (fun r => r.recipe_id == recipeId)).length)
          (Instruction.mkRows st.nextId recipeId
            ((st.rows.filter (fun r => r.recipe_id == recipeId)).length + 1)
            (items.drop (st.rows.filter (fun r => r.recipe_id == recipeId)).length))
          (by
          intro r hr
          have hge := mkRows_ordinal_ge recipeId _ st.nextId
            ((st.rows.filter (fun r => r.recipe_id == recipeId)).length + 1) r hr
          rw [List.length_take]
          omega),
        map_stepOverride_pairs recipeId
          (items.take (st.rows.filter (fun r => r.recipe_id == recipeId)).length)
          (st.rows.filter (fun r => r.recipe_id == recipeId)) 1 (by omega) hdense
          hmemrid (by rw [List.length_take]; omega),
        mkRows_map_pair, List.drop_zero, List.take_take, Nat.min_self,
        List.length_drop,
        zip_range'_take_drop 1
          (st.rows.filter (fun r => r.recipe_id == recipeId)).length items
          (Nat.le_of_lt hlt),
        Nat.add_comm 1 (st.rows.filter (fun r => r.recipe_id == recipeId)).length]
  · show ((((st.rows ++ Instruction.mkRows st.nextId recipeId
          ((st.rows.filter (fun r => r.recipe_id == recipeId)).length + 1)
          (items.drop (st.rows.filter (fun r => r.recipe_id == recipeId)).length)).map
            (stepOverride recipeId
              (items.take (st.rows.filter (fun r => r.recipe_id == recipeId)).length)
              1)).filter
          (fun r => r.recipe_id == recipeId)).map (·.id)).take
        (min (st.rows.filter (fun r => r.recipe_id == recipeId)).length items.length) =
      ((st.rows.filter (fun r => r.recipe_id == recipeId)).map (·.id)).take
        (min (st.rows.filter (fun r => r.recipe_id == recipeId)).length items.length)
    rw [filter_map_of_pred_eq
          (stepOverride recipeId
            (items.take (st.rows.filter (fun r => r.recipe_id == recipeId)).length) 1)
          (fun r => r.recipe_id == recipeId)
          (fun x => by simp only [stepOverride_recipe]),
        List.filter_append, mkRows_filter_self, List.map_append, List.map_append,
        map_stepOverride_map_id, map_stepOverride_map_id,
        Nat.min_eq_left (Nat.le_of_lt hlt)]
    have hlen : (st.rows.filter (fun r => r.recipe_id == recipeId)).length =
        ((st.rows.filter (fun r => r.recipe_id == recipeId)).map (·.id)).length :=
      (List.length_map _ _).symm
    rw [hlen, List.take_left, List.take_length]

theorem instruction_update_same (st : InstrState) (recipeId : Nat)
    (items : List String)
    (hdense : (st.rows.filter (fun r => r.recipe_id == recipeId)).map (·.ordinal) =
      List.range' 1 (st.rows.filter (fun r => r.recipe_id == recipeId)).length)
    (heq : (st.rows.filter (fun r => r.recipe_id == recipeId)).length = items.length) :
    ∃ ret st',
      Instruction.update st recipeId items = .ok (ret, st') ∧
      (Instruction.getAll st' recipeId).map (fun r => (r.ordinal, r.step)) =
        (List.range' 1 items.length).zip items ∧
      ((Instruction.getAll st' recipeId).map (·.id)).take
          (min (Instruction._getCount st recipeId) items.length) =
        ((Instruction.getAll st recipeId).map (·.id)).take
          (min (Instruction._getCount st recipeId) items.length) := by
  have hsort : Instruction.orderByOrdinal
      (st.rows.filter (fun r => r.recipe_id == recipeId)) =
      st.rows.filter (fun r => r.recipe_id == recipeId) :=
    orderByOrdinal_eq_self _ 1 hdense
  have hmemrid : ∀ r ∈ st.rows.filter (fun r => r.recipe_id == recipeId),
      r.recipe_id = recipeId := by
    intro r hr
    simpa using List.of_mem_filter hr
  have h1 : Instruction._removeOrCreate st recipeId items =
      .ok (items, [], st) := by
    simp only [Instruction._removeOrCreate]
    rw [hsort]
    simp only [List.length_map]
    rw [if_neg (by omega), if_neg (by omega)]
  refine ⟨(Instruction._updateLoop st recipeId items 1).1 ++
      ([] : List InstructionRow).map some,
    ⟨st.rows.map (stepOverride recipeId items 1), st.nextId⟩, ?_, ?_, ?_⟩
  · unfold Instruction.update
    rw [h1]
    show Except.ok (_, (Instruction._updateLoop _ recipeId _ 1).2) = _
    rw [updateLoop_state]
  · show (((st.rows.map (stepOverride recipeId items 1)).filter
        (fun r => r.recipe_id == recipeId)).map (fun r => (r.ordinal, r.step))) = _
    rw [filter_map_of_pred_eq (stepOverride recipeId items 1)
          (fun r => r.recipe_id == recipeId)
          (fun x => by simp only [stepOverride_recipe]),
        map_stepOverride_pairs recipeId items
          (st.rows.filter (fun r => r.recipe_id == recipeId)) 1 (by omega) hdense
          hmemrid (by omega),
        List.drop_zero, heq, List.take_length]
  · show (((st.rows.map (stepOverride recipeId items 1)).filter
        (fun r => r.recipe_id == recipeId)).map (·.id)).take
        (min (st.rows.filter (fun r => r.recipe_id == recipeId)).length items.length) =
      ((st.rows.filter (fun r => r.recipe_id == recipeId)).map (·.id)).take
        (min (st.rows.filter (fun r => r.recipe_id == recipeId)).length items.length)
    rw [filter_map_of_pred_eq (stepOverride recipeId items 1)
          (fun r => r.recipe_id == recipeId)
          (fun x => by simp only [stepOverride_recipe]),
        map_stepOverride_map_id]

theorem instruction_update_shrink (st : InstrState) (recipeId : Nat)
    (items : List String)
    (hdense : (st.rows.filter (fun r => r.recipe_id == recipeId)).map (·.ordinal) =
      List.range' 1 (st.rows.filter (fun r => r.recipe_id == recipeId)).length)
    (hids : (st.rows.map (·.id)).Nodup)
    (hgt : items.length < (st.rows.filter (fun r => r.recipe_id == recipeId)).length) :
    ∃ ret st',
      Instruction.update st recipeId items = .ok (ret, st') ∧
      (Instruction.getAll st' recipeId).map (fun r => (r.ordinal, r.step)) =
        (List.range' 1 items.length).zip items ∧
      ((Instruction.getAll st' recipeId).map (·.id)).take
          (min (Instruction._getCount st recipeId) items.length) =
        ((Instruction.getAll st recipeId).map (·.id)).take
          (min (Instruction._getCount st recipeId) items.length) := by
  have hsort : Instruction.orderByOrdinal
      (st.rows.filter (fun r => r.recipe_id == recipeId)) =
      st.rows.filter (fun r => r.recipe_id == recipeId) :=
    orderByOrdinal_eq_self _ 1 hdense
  have hmemrid : ∀ r ∈ st.rows.filter (fun r => r.recipe_id == recipeId),
      r.recipe_id = recipeId := by
    intro r hr
    simpa using List.of_mem_filter hr
  have hndold : (((st.rows.filter (fun r => r.recipe_id == recipeId)).map
      (·.id))).Nodup :=
    List.Nodup.sublist (List.Sublist.map _ (List.filter_sublist st.rows)) hids
  have hdel : Instruction.removeAll st
      (((st.rows.filter (fun r => r.recipe_id == recipeId)).map
        (·.id)).drop items.length) =
      .ok ⟨st.rows.filter (fun r =>
          !(((((st.rows.filter (fun r => r.recipe_id == recipeId)).map
            (·.id)).drop items.length)).contains r.id)), st.nextId⟩ := by
    refine removeAll_ok _ st
      (List.Nodup.sublist (List.drop_sublist _ _) hndold) ?_
    intro i hi
    have hi2 : i ∈ (st.rows.filter (fun r => r.recipe_id == recipeId)).map (·.id) :=
      List.mem_of_mem_drop hi
    rcases List.mem_map.mp hi2 with ⟨r, hr, hid⟩
    exact ⟨r, List.mem_of_mem_filter hr, hid⟩
  have h1 : Instruction._removeOrCreate st recipeId items =
      .ok (items, [],
        ⟨st.rows.filter (fun r =>
          !(((((st.rows.filter (fun r => r.recipe_id == recipeId)).map
            (·.id)).drop items.length)).contains r.id)), st.nextId⟩) := by
    simp only [Instruction._removeOrCreate]
    rw [hsort]
    simp only [List.length_map]
    rw [if_neg (by omega), if_pos hgt, hdel]
  have hswap : (st.rows.filter (fun r =>
      !(((((st.rows.filter (fun r => r.recipe_id == recipeId)).map
        (·.id)).drop items.length)).contains r.id))).filter
        (fun r => r.recipe_id == recipeId) =
      (st.rows.filter (fun r => r.recipe_id == recipeId)).filter (fun r =>
        !(((((st.rows.filter (fun r => r.recipe_id == recipeId)).map
          (·.id)).drop items.length)).contains r.id)) := by
    rw [List.filter_filter, List.filter_filter]
    exact List.filter_congr (fun x _ => Bool.and_comm _ _)
  have htake : (st.rows.filter (fun r => r.recipe_id == recipeId)).filter (fun r =>
      !(((((st.rows.filter (fun r => r.recipe_id == recipeId)).map
        (·.id)).drop items.length)).contains r.id)) =
      (st.rows.filter (fun r => r.recipe_id == recipeId)).take items.length :=
    filter_not_contains_drop _ items.length hndold
  have hlentake : ((st.rows.filter (fun r => r.recipe_id == recipeId)).take
      items.length).length = items.length := by
    rw [List.length_take]
    omega
  have hordtake : ((st.rows.filter (fun r => r.recipe_id == recipeId)).take
      items.length).map (·.ordinal) =
      List.range' 1 ((st.rows.filter (fun r => r.recipe_id == recipeId)).take
        items.length).length := by
    rw [List.map_take, hdense, take_range', List.length_take]
  refine ⟨(Instruction._updateLoop
      ⟨st.rows.filter (fun r =>
        !(((((st.rows.filter (fun r => r.recipe_id == recipeId)).map
          (·.id)).drop items.length)).contains r.id)), st.nextId⟩
      recipeId items 1).1 ++ ([] : List InstructionRow).map some,
    ⟨(st.rows.filter (fun r =>
        !(((((st.rows.filter (fun r => r.recipe_id == recipeId)).map
          (·.id)).drop items.length)).contains r.id))).map
        (stepOverride recipeId items 1), st.nextId⟩, ?_, ?_, ?_⟩
  · unfold Instruction.update
    rw [h1]
    show Except.ok (_, (Instruction._updateLoop _ recipeId _ 1).2) = _
    rw [updateLoop_state]
  · show ((((st.rows.filter (fun r =>
        !(((((st.rows.filter (fun r => r.recipe_id == recipeId)).map
          (·.id)).drop items.length)).contains r.id))).map
          (stepOverride recipeId items 1)).filter
        (fun r => r.recipe_id == recipeId)).map (fun r => (r.ordinal, r.step))) = _
    rw [filter_map_of_pred_eq (stepOverride recipeId items 1)
          (fun r => r.recipe_id == recipeId)
          (fun x => by simp only [stepOverride_recipe]),
        hswap, htake,
        map_stepOverride_pairs recipeId items _ 1 (by omega) hordtake
          (fun r hr => hmemrid r (List.mem_of_mem_take hr))
          (by rw [hlentake]; omega),
        List.drop_zero, hlentake, List.take_length]
  · show ((((st.rows.filter (fun r =>
        !(((((st.rows.filter (fun r => r.recipe_id == recipeId)).map
          (·.id)).drop items.length)).contains r.id))).map
          (stepOverride recipeId items 1)).filter
        (fun r => r.recipe_id == recipeId)).map (·.id)).take
        (min (st.rows.filter (fun r => r.recipe_id == recipeId)).length items.length) =
      ((st.rows.filter (fun r => r.recipe_id == recipeId)).map (·.id)).take
        (min (st.rows.filter (fun r => r.recipe_id == recipeId)).length items.length)
    rw [filter_map_of_pred_eq (stepOverride recipeId items 1)
          (fun r => r.recipe_id == recipeId)
          (fun x => by simp only [stepOverride_recipe]),
        hswap, htake, map_stepOverride_map_id, List.map_take,
        Nat.min_eq_right (Nat.le_of_lt hgt), List.take_take, Nat.min_self]

/-- C5: on a recipe whose existing instructions have dense ordinals `1..M`
(and distinct row ids, the table's primary key), the replace-all update with
`items` (length `N`) succeeds and leaves the recipe with exactly `N`
instruction rows whose (ordinal, step) pairs are `(1, items 0), ...,
(N, items (N-1))` in ordinal order: positions `1..min(M,N)` are overwritten
in place keeping their row ids, extra rows are appended when `N > M`, and
trailing rows are deleted when `N < M`. -/
theorem instruction_update_replaceAll_roundtrip (st : InstrState) (recipeId : Nat)
    (items : List String)
    (hdense : (st.rows.filter (fun r => r.recipe_id == recipeId)).map (·.ordinal) =
      List.range' 1 (st.rows.filter (fun r => r.recipe_id == recipeId)).length)
    (hids : (st.rows.map (·.id)).Nodup) :
    ∃ ret st',
      Instruction.update st recipeId items = .ok (ret, st') ∧
      (Instruction.getAll st' recipeId).length = items.length ∧
      (Instruction.getAll st' recipeId).map (fun r => (r.ordinal, r.step)) =
        (List.range' 1 items.length).zip items ∧
      ((Instruction.getAll st' recipeId).map (·.id)).take
          (min (Instruction._getCount st recipeId) items.length) =
        ((Instruction.getAll st recipeId).map (·.id)).take
          (min (Instruction._getCount st recipeId) items.length) := by
  have key :
      ∃ ret st',
        Instruction.update st recipeId items = .ok (ret, st') ∧
        (Instruction.getAll st' recipeId).map (fun r => (r.ordinal, r.step)) =
          (List.range' 1 items.length).zip items ∧
        ((Instruction.getAll st' recipeId).map (·.id)).take
            (min (Instruction._getCount st recipeId) items.length) =
          ((Instruction.getAll st recipeId).map (·.id)).take
            (min (Instruction._getCount st recipeId) items.length) := by
    rcases Nat.lt_trichotomy
        (st.rows.filter (fun r => r.recipe_id == recipeId)).length items.length with
      h | h | h
    · exact instruction_update_grow st recipeId items hdense h
    · exact instruction_update_same st recipeId items hdense h
    · exact instruction_update_shrink st recipeId items hdense hids h
  rcases key with ⟨ret, st', hu, hpairs, hid⟩
  refine ⟨ret, st', hu, ?_, hpairs, hid⟩
  have hlen := congrArg List.length hpairs
  simpa using hlen

/-- Witness for C5: a recipe with two instructions replaced by three steps. -/
theorem instruction_update_replaceAll_roundtrip_witness :
    ((([⟨1, 1, 1, "a"⟩, ⟨2, 1, 2, "b"⟩] : List InstructionRow).filter
        (fun r => r.recipe_id == 1)).map (·.ordinal) =
      List.range' 1 (([⟨1, 1, 1, "a"⟩, ⟨2, 1, 2, "b"⟩] : List InstructionRow).filter
        (fun r => r.recipe_id == 1)).length) ∧
    (∃ ret st',
      Instruction.update ⟨[⟨1, 1, 1, "a"⟩, ⟨2, 1, 2, "b"⟩], 3⟩ 1 ["x", "y", "z"] =
        .ok (ret, st') ∧
      (Instruction.getAll st' 1).length = (["x", "y", "z"] : List String).length ∧
      (Instruction.getAll st' 1).map (fun r => (r.ordinal, r.step)) =
        (List.range' 1 (["x", "y", "z"] : List String).length).zip ["x", "y", "z"] ∧
      ((Instruction.getAll st' 1).map (·.id)).take
          (min (Instruction._getCount ⟨[⟨1, 1, 1, "a"⟩, ⟨2, 1, 2, "b"⟩], 3⟩ 1)
            (["x", "y", "z"] : List String).length) =
        ((Instruction.getAll ⟨[⟨1, 1, 1, "a"⟩, ⟨2, 1, 2, "b"⟩], 3⟩ 1).map (·.id)).take
          (min (Instruction._getCount ⟨[⟨1, 1, 1, "a"⟩, ⟨2, 1, 2, "b"⟩], 3⟩ 1)
            (["x", "y", "z"] : List String).length)) :=
  ⟨by decide,
   instruction_update_replaceAll_roundtrip ⟨[⟨1, 1, 1, "a"⟩, ⟨2, 1, 2, "b"⟩], 3⟩ 1
     ["x", "y", "z"] (by decide) (by decide)⟩

/-- A row of the `ingredients` table as used by `src/models/ingredient.js`:
`{id, recipe_id, unit_id, label, ordinal, metric_amount, us_amount}`. -/
structure IngredientRow where
  id : Nat
  recipe_id : Nat
  unit_id : Nat
  label : String
  ordinal : Nat
  metric_amount : Int
  us_amount : Int
  deriving Repr, DecidableEq

/-- One element of the `ingredientData` payload of `Ingredient.create`. -/
structure IngredientData where
  label : String
  usAmount : Int
  metricAmount : Int
  unitId : Nat
  deriving Repr, DecidableEq

/-- The `ingredients` table together with its serial id sequence. -/
structure IngState where
  rows : List IngredientRow
  nextId : Nat
  deriving Repr, DecidableEq

namespace Ingredient

/-- Model of `Ingredient._getCount(recipeId)`:
`SELECT COUNT(*) FROM ingredients WHERE recipe_id = $1`. -/
def _getCount (st : IngState) (recipeId : Nat) : Nat :=
  (st.rows.filter (fun r => r.recipe_id == recipeId)).length

/-- The rows inserted by the INSERT loop of `Ingredient.create`. -/
def mkIngRows (nextId recipeId start : Nat) : List IngredientData → List IngredientRow
  | [] => []
  | d :: rest =>
      ⟨nextId, recipeId, d.unitId, d.label, start, d.metricAmount, d.usAmount⟩ ::
        mkIngRows (nextId + 1) recipeId (start + 1) rest

/-- The per-item INSERT loop of `Ingredient.create`: the i-th item gets
ordinal `startingOrder + i`. -/
def _createEach (st : IngState) (recipeId : Nat) :
    List IngredientData → Nat → List IngredientRow × IngState
  | [], _ => ([], st)
  | d :: rest, ord =>
      let row : IngredientRow :=
        ⟨st.nextId, recipeId, d.unitId, d.label, ord, d.metricAmount, d.usAmount⟩
      let res := _createEach ⟨st.rows ++ [row], st.nextId + 1⟩ recipeId rest (ord + 1)
      (row :: res.1, res.2)

/-- Model of `Ingredient.create(recipeId, ingredientData)`: `startingOrder =
currentCount + 1`, then one INSERT per item in input order. -/
def create (st : IngState) (recipeId : Nat) (ingredientData : List IngredientData) :
    List IngredientRow × IngState :=
  _createEach st recipeId ingredientData (_getCount st recipeId + 1)

/-- Model of `Ingredient.remove(id)`: `DELETE FROM ingredients WHERE id = $1`,
`NotFoundError` when nothing was deleted.  It does not renumber the
remaining rows. -/
def remove (st : IngState) (id : Nat) : Except AppError IngState :=
  if st.rows.any (fun r => r.id == id) then
    .ok ⟨st.rows.filter (fun r => !(r.id == id)), st.nextId⟩
  else
    .error .notFound

end Ingredient

/-- A sequence of `Ingredient.create` (append) operations, each naming a
recipe and its new items, applied in order. -/
def applyCreates (st : IngState) : List (Nat × List IngredientData) → IngState
  | [] => st
  | (recipeId, data) :: rest => applyCreates (Ingredient.create st recipeId data).2 rest

theorem createEach_eq (recipeId : Nat) (data : List IngredientData) :
    ∀ (st : IngState) (ord : Nat),
    Ingredient._createEach st recipeId data ord =
      (Ingredient.mkIngRows st.nextId recipeId ord data,
       ⟨st.rows ++ Ingredient.mkIngRows st.nextId recipeId ord data,
        st.nextId + data.length⟩) := by
  induction data with
  | nil => intro st ord; simp [Ingredient._createEach, Ingredient.mkIngRows]
  | cons d rest ih =>
      intro st ord
      simp only [Ingredient._createEach, Ingredient.mkIngRows, ih, List.length_cons]
      rw [Prod.mk.injEq, IngState.mk.injEq]
      refine ⟨rfl, ?_, by omega⟩
      simp [List.append_assoc]

theorem mkIngRows_length (recipeId : Nat) (data : List IngredientData) :
    ∀ (nextId start : Nat),
    (Ingredient.mkIngRows nextId recipeId start data).length = data.length := by
  induction data with
  | nil => intro nextId start; rfl
  | cons d rest ih =>
      intro nextId start
      simp [Ingredient.mkIngRows, ih]

theorem mkIngRows_map_ordinal (recipeId : Nat) (data : List IngredientData) :
    ∀ (nextId start : Nat),
    (Ingredient.mkIngRows nextId recipeId start data).map (·.ordinal) =
      List.range' start data.length := by
  induction data with
  | nil => intro nextId start; rfl
  | cons d rest ih =>
      intro nextId start
      simp [Ingredient.mkIngRows, List.range'_succ, ih]

theorem mkIngRows_recipe_id (recipeId : Nat) (data : List IngredientData) :
    ∀ (nextId start : Nat) (r : IngredientRow),
    r ∈ Ingredient.mkIngRows nextId recipeId start data → r.recipe_id = recipeId := by
  induction data with
  | nil => intro nextId start r h; cases h
  | cons d rest ih =>
      intro nextId start r h
      rcases List.mem_cons.mp h with h1 | h1
      · rw [h1]
      · exact ih _ _ r h1

theorem mkIngRows_filter_self (recipeId : Nat) (data : List IngredientData)
    (nextId start : Nat) :
    (Ingredient.mkIngRows nextId recipeId start data).filter
      (fun r => r.recipe_id == recipeId) =
      Ingredient.mkIngRows nextId recipeId start data := by
  rw [List.filter_eq_self]
  intro r hr
  simp [mkIngRows_recipe_id recipeId data nextId start r hr]

theorem mkIngRows_filter_ne (recipeId recipeId' : Nat) (hne : recipeId ≠ recipeId')
    (data : List IngredientData) (nextId start : Nat) :
    (Ingredient.mkIngRows nextId recipeId start data).filter
      (fun r => r.recipe_id == recipeId') = [] := by
  rw [List.filter_eq_nil_iff]
  intro r hr
  rw [mkIngRows_recipe_id recipeId data nextId start r hr]
  simp [hne]

/-- One `Ingredient.create` keeps every recipe's ordinal sequence dense. -/
theorem create_keeps_density (st : IngState) (recipeId recipeId' : Nat)
    (data : List IngredientData)
    (h : (st.rows.filter (fun r => r.recipe_id == recipeId')).map (·.ordinal) =
      List.range' 1 (st.rows.filter (fun r => r.recipe_id == recipeId')).length) :
    (((Ingredient.create st recipeId data).2.rows.filter
        (fun r => r.recipe_id == recipeId')).map (·.ordinal)) =
      List.range' 1 ((Ingredient.create st recipeId data).2.rows.filter
        (fun r => r.recipe_id == recipeId')).length := by
  unfold Ingredient.create
  rw [createEach_eq]
  show ((st.rows ++ Ingredient.mkIngRows st.nextId recipeId
      (Ingredient._getCount st recipeId + 1) data).filter
      (fun r => r.recipe_id == recipeId')).map (·.ordinal) = _
  rw [List.filter_append]
  by_cases hrid : recipeId = recipeId'
  · subst hrid
    rw [mkIngRows_filter_self, List.map_append, h, mkIngRows_map_ordinal,
        List.length_append, mkIngRows_length recipeId data st.nextId _]
    show List.range' 1 (st.rows.filter (fun r => r.recipe_id == recipeId)).length ++
        List.range' ((st.rows.filter (fun r => r.recipe_id == recipeId)).length + 1)
          data.length =
      List.range' 1
        ((st.rows.filter (fun r => r.recipe_id == recipeId)).length + data.length)
    have hr := List.range'_append_1 1
      (st.rows.filter (fun r => r.recipe_id == recipeId)).length data.length
    rw [Nat.add_comm 1 (st.rows.filter (fun r => r.recipe_id == recipeId)).length] at hr
    rw [hr, Nat.add_comm data.length
      (st.rows.filter (fun r => r.recipe_id == recipeId)).length]
  · rw [mkIngRows_filter_ne recipeId recipeId' hrid, List.append_nil, h]

/-- C4 counterexample: the claimed invariant fails as soon as a `remove` is
in the sequence.  Create two ingredients on a fresh recipe (ordinals 1, 2),
then remove the first: one ingredient remains (`N = 1`) but its ordinal is
2, not the dense set `{1}` — `Ingredient.remove` deletes the row without
renumbering, exactly as §4.2 of the design documents. -/
theorem ingredient_remove_breaks_density :
    (Ingredient.remove
        (Ingredient.create ⟨[], 1⟩ 1 [⟨"a", 1, 1, 1⟩, ⟨"b", 2, 2, 1⟩]).2 1).map
      (fun st => (st.rows.filter (fun r => r.recipe_id == 1)).map (·.ordinal)) =
      .ok [2] ∧
    ¬(([2] : List Nat) = List.range' 1 1) := by
  constructor
  · rfl
  · decide

/-- C4 amended: for every recipe, the ingredient ordinals form exactly
`{1..N}` after any finite sequence of `Ingredient.create` (append)
operations starting from an empty store; `Ingredient.remove` is excluded
because it deletes without renumbering (see the counterexample). -/
theorem ingredient_create_sequences_keep_density
    (ops : List (Nat × List IngredientData)) (recipeId : Nat) :
    ((applyCreates ⟨[], 1⟩ ops).rows.filter
        (fun r => r.recipe_id == recipeId)).map (·.ordinal) =
      List.range' 1 ((applyCreates ⟨[], 1⟩ ops).rows.filter
        (fun r => r.recipe_id == recipeId)).length := by
  suffices hgen : ∀ (st : IngState),
      (∀ rid, (st.rows.filter (fun r => r.recipe_id == rid)).map (·.ordinal) =
        List.range' 1 (st.rows.filter (fun r => r.recipe_id == rid)).length) →
      ∀ rid, ((applyCreates st ops).rows.filter
          (fun r => r.recipe_id == rid)).map (·.ordinal) =
        List.range' 1 ((applyCreates st ops).rows.filter
          (fun r => r.recipe_id == rid)).length by
    exact hgen ⟨[], 1⟩ (fun rid => rfl) recipeId
  induction ops with
  | nil => intro st h rid; exact h rid
  | cons op rest ih =>
      intro st h rid
      exact ih (Ingredient.create st op.1 op.2).2
        (fun rid' => create_keeps_density st op.1 rid' op.2 (h rid')) rid

/-- A row of the `ingredient_measures` table:
`{ingredient_id, amount, unit, unit_type}`, keyed by
`(ingredient_id, unit_type)`. -/
structure MeasureRow where
  ingredient_id : Nat
  amount : Int
  unit : String
  unit_type : String
  deriving Repr, DecidableEq

/-- The `measureData` payload (`{amount?, unit?}`) of a measure edit;
`none` models an absent key for `sqlForPartialUpdate`. -/
structure MeasureData where
  amount : Option Int
  unit : Option String
  deriving Repr, DecidableEq

/-- The `measure` payload of `Ingredient._updateSingle`:
`{unitType, measureData}`. -/
structure MeasureEdit where
  unitType : Option String
  measureData : MeasureData
  deriving Repr, DecidableEq

/-- The fields of the ingredient row that `_getUpdatedMeasures` reads:
its id and its nullable `base_food`. -/
structure IngredientInfo where
  id : Nat
  baseFood : Option String
  deriving Repr, DecidableEq

/-- The `{metric, us}` pair returned by `_getUpdatedMeasures`; either side is
`none` when the table has no such row (JS `undefined`). -/
structure MeasurePair where
  metric : Option MeasureRow
  us : Option MeasureRow
  deriving Repr, DecidableEq

namespace Ingredient

/-- The query `SELECT ... FROM ingredient_measures WHERE ingredient_id = $1 AND
unit_type = $2`, first row. -/
def selectMeasure (measures : List MeasureRow) (ingredientId : Nat)
    (unitType : String) : Option MeasureRow :=
  measures.find? (fun m => m.ingredient_id == ingredientId && m.unit_type == unitType)

/-- The `measures.metric / measures.us` assembly at the end of
`_getUpdatedMeasures`: the addressed measure goes to its slot, the converted
one (possibly `null`) to the other, and any still-unset slot is read back
from the table (`if (!measures.metric) ...`). -/
def assemblePair (measures : List MeasureRow) (ingredientId : Nat)
    (unitType1 : String) (m1 : MeasureRow) (m2 : Option MeasureRow) : MeasurePair :=
  let metric0 : Option MeasureRow :=
    if unitType1 == "metric" then some m1
    else if unitType1 == "us" then m2 else none
  let us0 : Option MeasureRow :=
    if unitType1 == "metric" then m2
    else if unitType1 == "us" then some m1 else none
  ⟨match metric0 with
    | some m => some m
    | none => selectMeasure measures ingredientId "metric",
   match us0 with
    | some m => some m
    | none => selectMeasure measures ingredientId "us"⟩

/-- Model of `Ingredient._getUpdatedTargetFromSourceMeasure(baseFood, ingredientId,
sourceUnitType, sourceAmount, sourceUnit)` from the `ingredient_measures`
variant: reads the opposite unit system's row to get `targetUnit`, calls the
external conversion service `getConversion(baseFood, sourceAmount,
sourceUnit, targetUnit)` (passed in as `conv`) and overwrites the target
measure's `amount` with the result, leaving its `unit` unchanged.  When the
target row is absent the source crashes destructuring `rows[0]`, modelled as
an error. -/
def _getUpdatedTargetFromSourceMeasure
    (conv : String → Int → String → String → Int)
    (measures : List MeasureRow) (baseFood : String) (ingredientId : Nat)
    (sourceUnitType : String) (sourceAmount : Int) (sourceUnit : String) :
    Except AppError (MeasureRow × List MeasureRow) :=
  let targetUnitType := if sourceUnitType == "metric" then "us" else "metric"
  match measures.find? (fun m => m.ingredient_id == ingredientId &&
      m.unit_type == targetUnitType) with
  | none => .error .notFound
  | some target =>
      let targetAmount := conv baseFood sourceAmount sourceUnit target.unit
      let newMeasures := measures.map (fun m =>
        if m.ingredient_id == ingredientId && m.unit_type == targetUnitType
        then { m with amount := targetAmount } else m)
      match newMeasures.find? (fun m => m.ingredient_id == ingredientId &&
          m.unit_type == targetUnitType) with
      | some updated => .ok (updated, newMeasures)
      | none => .error .notFound

/-- Model of `Ingredient._getUpdatedMeasures(measure, ingredient)` from the
`ingredient_measures` variant: throws `BadRequestError` when `unitType` is
missing (or when `measureData` has no keys, via `sqlForPartialUpdate`),
updates the addressed measure row in place (`NotFoundError` when absent),
then — only when the ingredient has a `baseFood` — recomputes the opposite
unit system's measure through the conversion service; finally returns the
`{metric, us}` pair with unset slots read back from the table. -/
def _getUpdatedMeasures (conv : String → Int → String → String → Int)
    (measures : List MeasureRow) (measure : Option MeasureEdit)
    (ingredient : IngredientInfo) :
    Except AppError (MeasurePair × List MeasureRow) :=
  match measure with
  | none =>
      .ok (⟨selectMeasure measures ingredient.id "metric",
            selectMeasure measures ingredient.id "us"⟩, measures)
  | some e =>
      match e.unitType with
      | none => .error .badRequest
      | some unitType1 =>
          if e.measureData.amount = none ∧ e.measureData.unit = none then
            .error .badRequest
          else
            let ms1 := measures.map (fun m =>
              if m.unit_type == unitType1 && m.ingredient_id == ingredient.id then
                { m with
                  amount := e.measureData.amount.getD m.amount,
                  unit := e.measureData.unit.getD m.unit }
              else m)
            match ms1.find? (fun m => m.unit_type == unitType1 &&
                m.ingredient_id == ingredient.id) with
            | none => .error .notFound
            | some updatedMeasure1 =>
                match ingredient.baseFood with
                | some bf =>
                    match _getUpdatedTargetFromSourceMeasure conv ms1 bf
                        ingredient.id unitType1 updatedMeasure1.amount
                        updatedMeasure1.unit with
                    | .error err => .error err
                    | .ok (updatedMeasure2, ms2) =>
                        .ok (assemblePair ms2 ingredient.id unitType1
                              updatedMeasure1 (some updatedMeasure2), ms2)
                | none =>
                    .ok (assemblePair ms1 ingredient.id unitType1
                          updatedMeasure1 none, ms1)

end Ingredient

/-- C6: updating one unit-system measure of an ingredient that has a
`baseFood` overwrites the opposite unit-system measure's `amount` with the
value returned by the conversion service called with `(baseFood,
updatedAmount, updatedUnit, otherMeasure.unit)`, leaving the other measure's
`unit` unchanged; updating a measure of an ingredient with no `baseFood`
leaves the opposite measure's `amount` and `unit` completely unchanged. -/
theorem measure_update_syncs_opposite
    (conv : String → Int → String → String → Int)
    (measures : List MeasureRow) (ing : IngredientInfo)
    (ut : String) (d : MeasureData) (m1 m2 : MeasureRow)
    (hut : ut = "metric" ∨ ut = "us")
    (hd : ¬(d.amount = none ∧ d.unit = none))
    (hm1 : measures.find? (fun m => m.unit_type == ut &&
        m.ingredient_id == ing.id) = some m1)
    (hm2 : measures.find? (fun m => m.ingredient_id == ing.id &&
        m.unit_type == (if ut == "metric" then "us" else "metric")) = some m2) :
    (∀ bf, ing.baseFood = some bf →
      (Ingredient._getUpdatedMeasures conv measures (some ⟨some ut, d⟩) ing).map
        (fun res => res.2.find? (fun m => m.ingredient_id == ing.id &&
          m.unit_type == (if ut == "metric" then "us" else "metric"))) =
      .ok (some { m2 with amount := (conv bf (d.amount.getD m1.amount)
        (d.unit.getD m1.unit) m2.unit) })) ∧
    (ing.baseFood = none →
      (Ingredient._getUpdatedMeasures conv measures (some ⟨some ut, d⟩) ing).map
        (fun res => res.2.find? (fun m => m.ingredient_id == ing.id &&
          m.unit_type == (if ut == "metric" then "us" else "metric"))) =
      .ok (some m2)) := by
  have hputm1 : (m1.unit_type == ut && m1.ingredient_id == ing.id) = true := by
    simpa using List.find?_some hm1
  have hputm2 : (m2.ingredient_id == ing.id &&
      m2.unit_type == (if ut == "metric" then "us" else "metric")) = true := by
    simpa using List.find?_some hm2
  have hm2ut : m2.unit_type = (if ut == "metric" then "us" else "metric") := by
    have := (Bool.and_eq_true _ _).mp hputm2
    simpa using this.2
  have hne : (m2.unit_type == ut) = false := by
    rcases hut with h | h <;> subst h <;> rw [hm2ut] <;> decide
  have hfixm2 : (if m2.unit_type == ut && m2.ingredient_id == ing.id then
      { m2 with amount := d.amount.getD m2.amount, unit := d.unit.getD m2.unit }
      else m2) = m2 := by
    rw [hne, Bool.false_and, if_neg (by decide : ¬(false = true))]
  have hfind1 : (measures.map (fun m : MeasureRow =>
      if m.unit_type == ut && m.ingredient_id == ing.id then
        { m with amount := d.amount.getD m.amount, unit := d.unit.getD m.unit }
      else m)).find? (fun m => m.unit_type == ut && m.ingredient_id == ing.id) =
      some { m1 with
        amount := d.amount.getD m1.amount,
        unit := d.unit.getD m1.unit } := by
    rw [find?_map_of_pred_eq (fun m : MeasureRow =>
          if m.unit_type == ut && m.ingredient_id == ing.id then
            { m with amount := d.amount.getD m.amount, unit := d.unit.getD m.unit }
          else m)
        (fun m => m.unit_type == ut && m.ingredient_id == ing.id)
        (fun x => by
          simp only []
          by_cases hc : (x.unit_type == ut && x.ingredient_id == ing.id) = true
          · rw [if_pos hc]
          · rw [if_neg hc]) measures, hm1, Option.map_some']
    rw [if_pos hputm1]
  have hfind2 : (measures.map (fun m : MeasureRow =>
      if m.unit_type == ut && m.ingredient_id == ing.id then
        { m with amount := d.amount.getD m.amount, unit := d.unit.getD m.unit }
      else m)).find? (fun m => m.ingredient_id == ing.id &&
        m.unit_type == (if ut == "metric" then "us" else "metric")) = some m2 := by
    rw [find?_map_of_pred_eq (fun m : MeasureRow =>
          if m.unit_type == ut && m.ingredient_id == ing.id then
            { m with amount := d.amount.getD m.amount, unit := d.unit.getD m.unit }
          else m)
        (fun m => m.ingredient_id == ing.id &&
          m.unit_type == (if ut == "metric" then "us" else "metric"))
        (fun x => by
          simp only []
          by_cases hc : (x.unit_type == ut && x.ingredient_id == ing.id) = true
          · rw [if_pos hc]
          · rw [if_neg hc]) measures, hm2, Option.map_some', hfixm2]
  have hbig : ∀ bf : String,
      ((measures.map (fun m : MeasureRow =>
        if m.unit_type == ut && m.ingredient_id == ing.id then
          { m with amount := d.amount.getD m.amount, unit := d.unit.getD m.unit }
        else m)).map (fun m : MeasureRow =>
          if m.ingredient_id == ing.id &&
              m.unit_type == (if ut == "metric" then "us" else "metric") then
            { m with amount := (conv bf (d.amount.getD m1.amount)
              (d.unit.getD m1.unit) m2.unit) }
          else m)).find? (fun m : MeasureRow => m.ingredient_id == ing.id &&
            m.unit_type == (if ut == "metric" then "us" else "metric")) =
        some { m2 with amount := (conv bf (d.amount.getD m1.amount)
          (d.unit.getD m1.unit) m2.unit) } := by
    intro bf
    rw [find?_map_of_pred_eq (fun m : MeasureRow =>
          if m.ingredient_id == ing.id &&
              m.unit_type == (if ut == "metric" then "us" else "metric") then
            { m with amount := (conv bf (d.amount.getD m1.amount)
              (d.unit.getD m1.unit) m2.unit) }
          else m)
        (fun m => m.ingredient_id == ing.id &&
          m.unit_type == (if ut == "metric" then "us" else "metric"))
        (fun x => by
          simp only []
          by_cases hc : (x.ingredient_id == ing.id &&
            x.unit_type == (if ut == "metric" then "us" else "metric")) = true
          · rw [if_pos hc]
          · rw [if_neg hc]) _, hfind2, Option.map_some', if_pos hputm2]
  constructor
  · intro bf hbf
    simp only [Ingredient._getUpdatedMeasures, if_neg hd, hfind1, hbf,
      Ingredient._getUpdatedTargetFromSourceMeasure, hfind2, Except.map,
      hbig bf]
  · intro hbf
    simp only [Ingredient._getUpdatedMeasures, if_neg hd, hfind1, hbf,
      Except.map, hfind2]

/-- Witness for C6: editing the `us` amount of an ingredient with
`baseFood = "honey"` at a conversion oracle that multiplies by 100. -/
theorem measure_update_syncs_opposite_witness :
    (Ingredient._getUpdatedMeasures (fun _ a _ _ => a * 100)
        [⟨1, 2, "cups", "us"⟩, ⟨1, 500, "g", "metric"⟩]
        (some ⟨some "us", ⟨some 3, none⟩⟩) ⟨1, some "honey"⟩).map
      (fun res => res.2.find? (fun m =>
        m.ingredient_id == (⟨1, some "honey"⟩ : IngredientInfo).id &&
        m.unit_type == (if ("us" : String) == "metric" then "us" else "metric"))) =
      .ok (some ⟨1, 300, "g", "metric"⟩) :=
  (measure_update_syncs_opposite (fun _ a _ _ => a * 100)
    [⟨1, 2, "cups", "us"⟩, ⟨1, 500, "g", "metric"⟩] ⟨1, some "honey"⟩ "us"
    ⟨some 3, none⟩ ⟨1, 2, "cups", "us"⟩ ⟨1, 500, "g", "metric"⟩
    (Or.inr rfl) (by simp) (by rfl) (by rfl)).1 "honey" rfl
